import Mathlib

/-!
# git-autosave: a shallow embedding of `main.go`

The program is a sequential wrapper around three invocations of `git`
(`status --porcelain`, `add .`, `commit --message ...`).  The embedding keeps
the structure of the Go source:

* package-level variables (`PackageName`, `CommitMessageFormat`, ...),
* `init`, `main`, `runGitStatus`, `runGitAddAll`, `runGitCommit`,
  `gitStatus.HasChanges`.

Everything outside the process is collected in a `World`: the environment
variables, the command line, the build information, the clock, and the
behaviour of the external commands.  The
observable result of a run is an `Outcome`: the exit code and the ordered list
of external commands that were started.

Go strings are modelled by `String`.  Writes to standard error never influence
control flow in the source (their results are discarded) and are left out.
-/

namespace Autosave

/-! ## Library fragments used by the source -/

/-- A Go `error` value; only its presence matters to the program. -/
abbrev Error := String

/-- Scanning loop of `strings.Split` for a one-character separator: `cur` holds
(reversed) the characters read since the last separator. -/
def Split.go (sep : Char) (cur : List Char) : List Char → List (List Char)
  | [] => [cur.reverse]
  | c :: cs =>
    if c = sep then cur.reverse :: Split.go sep [] cs
    else Split.go sep (c :: cur) cs

/-- The call `strings.Split(s, sep)` for a separator of one character: the
pieces of `s` between consecutive separators, in order, empty pieces kept. -/
def Split (s : String) (sep : Char) : List String :=
  (Split.go sep [] s.data).map String.mk

/-- An `exec.Cmd`: program, argument vector (program name first) and working
directory. -/
structure Cmd where
  Path : String
  Args : List String
  Dir : String
deriving DecidableEq

/-- The constructor `exec.Command(name, arg...)`. -/
def Command (name : String) (arg : List String) : Cmd :=
  { Path := name, Args := name :: arg, Dir := "" }

/-- The surroundings of one run of the process. -/
structure World where
  /-- The process environment (`os.LookupEnv`). -/
  environ : String → Option String
  /-- The command-line arguments after the program name (`os.Args[1:]`). -/
  Args : List String
  /-- The module path of `debug.ReadBuildInfo()`, when it is available. -/
  ReadBuildInfo : Option String
  /-- The text `time.Now().Format(layout)` at the time of the commit. -/
  nowFormat : String → String
  /-- The behaviour of `cmd.CombinedOutput()`: given the commands already run by
  this process and the command to run, the combined output and the error. -/
  exec : List Cmd → Cmd → String × Option Error

/-- The call `os.Getenv(key)`: the empty string when the variable is unset. -/
def Getenv (w : World) (key : String) : String :=
  (w.environ key).getD ""

/-- The method `cmd.CombinedOutput()`: runs the command, which is appended to
the list of commands started so far. -/
def CombinedOutput (w : World) (cmd : Cmd) (t : List Cmd) :
    (String × Option Error) × List Cmd :=
  (w.exec t cmd, t ++ [cmd])

/-! ## The fragment of `flag` the program uses

The only flag the program defines is the boolean `dry`, on the default flag set
(`flag.CommandLine`, error handling `ExitOnError`). -/

/-- The errors of flag parsing: the help request (`flag.ErrHelp`) and every
other error (`failf`). -/
inductive FlagError where
  | ErrHelp
  | failf
deriving DecidableEq

/-- The call `strconv.ParseBool(str)`. -/
def ParseBool (str : String) : Option Bool :=
  if str ∈ ["1", "t", "T", "TRUE", "true", "True"] then some true
  else if str ∈ ["0", "f", "F", "FALSE", "false", "False"] then some false
  else none

/-- Cuts a flag at its first equals sign: the name, and the value if there is
one. -/
def cutValue : List Char → List Char × Option (List Char)
  | [] => ([], none)
  | c :: cs =>
    if c = '=' then ([], some cs)
    else ((c :: (cutValue cs).1), (cutValue cs).2)

/-- The flag in argument `s`, once its one or two leading dashes are removed
(`name0`): sets `dry` (the boolean flag needs no value and takes an optional
`=value`), or fails; an undefined flag named `h` or `help` is the help
request. -/
def setFlag (name0 : List Char) : Except FlagError Bool :=
  match name0 with
  | [] => .error FlagError.failf
  | c :: cs =>
    if c = '-' ∨ c = '=' then .error FlagError.failf
    else
      -- an equals sign cannot come first, the search starts at index 1
      let name := String.mk (c :: (cutValue cs).1)
      let value := (cutValue cs).2
      if name = "dry" then
        match value with
        | some v =>
          match ParseBool (String.mk v) with
          | some b => .ok b
          | none => .error FlagError.failf
        | none => .ok true
      else if name = "help" ∨ name = "h" then .error FlagError.ErrHelp
      else .error FlagError.failf

/-- The loop of `FlagSet.Parse` around `parseOne`, from the current value of
`*DryRun`: an argument shorter than two characters or not starting with a dash
ends the flags, so does `--`; every flag consumes one argument. -/
def parseArgs : Bool → List String → Except FlagError Bool
  | dry, [] => .ok dry
  | dry, s :: rest =>
    match s.data with
    | '-' :: c :: cs =>
      if c = '-' ∧ cs = [] then .ok dry
      else
        match setFlag (if c = '-' then cs else c :: cs) with
        | .error e => .error e
        | .ok b => parseArgs b rest
    | _ => .ok dry

/-- The call `flag.Parse()`: the value of `*DryRun` when it returns (the default
is `false`), or the exit code when it ends the process, as `ExitOnError` does:
0 after a help request, 2 after any other error. -/
def flagParse (w : World) : Except Nat Bool :=
  match parseArgs false w.Args with
  | .ok dry => .ok dry
  | .error FlagError.ErrHelp => .error 0
  | .error FlagError.failf => .error 2

/-! ## The fragment of `text/template` the program uses -/

/-- Data handed to the commit message template. -/
structure CommitMessageData where
  Datetime : String
  Author : String
  DatetimeVerbose : String
deriving DecidableEq

/-- A parsed template item: literal text, or an action naming a field of the
data (`.Name` between the delimiters). -/
inductive Node where
  | text (s : String)
  | field (name : String)
deriving DecidableEq

/-- Literal text collected so far (reversed), as a list of nodes. -/
def flushText (acc : List Char) : List Node :=
  if acc = [] then [] else [Node.text (String.mk acc.reverse)]

/-- Removes leading spaces. -/
def dropSpaces : List Char → List Char
  | [] => []
  | c :: cs => if c = ' ' then dropSpaces cs else c :: cs

/-- The body of an action: after trimming spaces it must be a dot followed by a
non-empty alphanumeric field name. -/
def mkAction (body : List Char) : Except Error Node :=
  match (dropSpaces (dropSpaces body).reverse).reverse with
  | '.' :: name =>
    if name ≠ [] ∧ name.all Char.isAlphanum then .ok (Node.field (String.mk name))
    else .error "template: bad field name"
  | _ => .error "template: unsupported action"

/-- Template lexer and parser: text up to the left delimiter is a text node,
what stands between the delimiters is an action.  `inAction` tells on which
side of a left delimiter the scan is, `acc` is the current item, reversed. -/
def scan : Bool → List Char → List Char → Except Error (List Node)
  | false, acc, [] => .ok (flushText acc)
  | true, _, [] => .error "template: unclosed action"
  | inAction, acc, [c] =>
    if inAction then .error "template: unclosed action"
    else .ok (flushText (c :: acc))
  | inAction, acc, c :: d :: rest =>
    if !inAction && c = '\x7b' && d = '\x7b' then
      (scan true [] rest).map (flushText acc ++ ·)
    else if inAction && c = '\x7d' && d = '\x7d' then
      match mkAction acc.reverse with
      | .error e => .error e
      | .ok n => (scan false [] rest).map (n :: ·)
    else scan inAction (c :: acc) (d :: rest)

/-- The call `template.New(name).Parse(text)`. -/
def Parse (text : String) : Except Error (List Node) :=
  scan false [] text.data

/-- Field lookup of an action in the data record. -/
def CommitMessageData.lookup (data : CommitMessageData) (name : String) : Option String :=
  if name = "Datetime" then some data.Datetime
  else if name = "Author" then some data.Author
  else if name = "DatetimeVerbose" then some data.DatetimeVerbose
  else none

/-- The method `Execute(&builder, data)`: writes the nodes in order to the
builder `b`; returns the builder and the first error, if any. -/
def Execute : List Node → String → CommitMessageData → String × Option Error
  | [], b, _ => (b, none)
  | Node.text s :: ns, b, data => Execute ns (b ++ s) data
  | Node.field name :: ns, b, data =>
    match data.lookup name with
    | some v => Execute ns (b ++ v) data
    | none => (b, some "template: cannot evaluate field")

/-! ## Package-level variables -/

/-- The constant `time.DateTime`. -/
def DateTimeLayout : String := "2006-01-02 15:04:05"

/-- Initial value of `PackageName`. -/
def PackageName : String := "go-autosave"

def DateTimeVerboseLayout : String := "Monday, January 02 2006 15:04:05 MST"

def CommitMessageFormat : String :=
  "\x7b\x7b .Datetime \x7d\x7d autosave\n\nAutosaved by \x7b\x7b .Author \x7d\x7d\n\x7b\x7b .DatetimeVerbose \x7d\x7d\n"

/-- The variable `CommitMessageTemplate` before `template.Must` inspects it. -/
def CommitMessageTemplate : Except Error (List Node) :=
  Parse CommitMessageFormat

/-- The package-level variables that `init` assigns. -/
structure Globals where
  DryRun : Bool
  cwd : String
  PackageName : String
deriving DecidableEq

/-- The result of a run: exit code and external commands started, in order. -/
structure Outcome where
  exitCode : Nat
  trace : List Cmd
deriving DecidableEq

/-! ## The program -/

structure gitStatus where
  Lines : List String
deriving DecidableEq

def gitStatus.HasChanges (self : gitStatus) : Bool :=
  decide (self.Lines.length > 0)

/-- The function `init`: `.error code` is `os.Exit(code)`. -/
def init (w : World) : Except Nat Globals :=
  match flagParse w with
  | .error code => .error code
  | .ok DryRun =>
    let cwd := Getenv w "NOTES"
    if cwd = "" then .error 1
    else
      match w.ReadBuildInfo with
      | some path => .ok { DryRun := DryRun, cwd := cwd, PackageName := path }
      | none => .ok { DryRun := DryRun, cwd := cwd, PackageName := PackageName }

def runGitStatus (w : World) (g : Globals) (t : List Cmd) :
    Except Error gitStatus × List Cmd :=
  let cmd := { Command "git" ["status", "--porcelain"] with Dir := g.cwd }
  match CombinedOutput w cmd t with
  | ((_, some err), t) => (.error err, t)
  | ((out, none), t) =>
    let status := (Split out '\n').foldl
      (fun (status : gitStatus) line =>
        if line = "" then status else { Lines := status.Lines ++ [line] })
      { Lines := [] }
    (.ok status, t)

def runGitAddAll (w : World) (g : Globals) (t : List Cmd) : Option Error × List Cmd :=
  let cmd := { Command "git" ["add", "."] with Dir := g.cwd }
  match CombinedOutput w cmd t with
  | ((_, some err), t) => (some err, t)
  | ((_, none), t) => (none, t)

def runGitCommit (w : World) (tpl : List Node) (g : Globals) (t : List Cmd) :
    Option Error × List Cmd :=
  let data : CommitMessageData :=
    { Datetime := w.nowFormat DateTimeLayout
      DatetimeVerbose := w.nowFormat DateTimeVerboseLayout
      Author := g.PackageName }
  match Execute tpl "" data with
  | (_, some err) => (some err, t)
  | (messageWriter, none) =>
    let cmd := { Command "git" ["commit", "--message", messageWriter] with Dir := g.cwd }
    match CombinedOutput w cmd t with
    | ((_, some err), t) => (some err, t)
    | ((_, none), t) => (none, t)

/-- The function `main`, started with no command run yet. -/
def main (w : World) (tpl : List Node) (g : Globals) : Outcome :=
  match runGitStatus w g [] with
  | (.error _, t) => { exitCode := 1, trace := t }
  | (.ok status, t) =>
    if !status.HasChanges then { exitCode := 0, trace := t }
    else
      match (if g.DryRun then (none, t) else runGitAddAll w g t) with
      | (some _, t) => { exitCode := 1, trace := t }
      | (none, t) =>
        match (if g.DryRun then (none, t) else runGitCommit w tpl g t) with
        | (some _, t) => { exitCode := 1, trace := t }
        | (none, t) => { exitCode := 0, trace := t }

/-- One run of the process: initialisation of the package-level variables
(`template.Must` panics, exit code 2, when the template does not parse), then
`init`, then `main`. -/
def run (w : World) : Outcome :=
  match CommitMessageTemplate with
  | .error _ => { exitCode := 2, trace := [] }
  | .ok tpl =>
    match init w with
    | .error code => { exitCode := code, trace := [] }
    | .ok g => main w tpl g

/-! ## Vocabulary of the statements -/

/-- A `git` command line run in directory `dir`. -/
def gitCmd (dir : String) (args : List String) : Cmd :=
  { Path := "git", Args := "git" :: args, Dir := dir }

/-- The status query. -/
def statusCmd (dir : String) : Cmd := gitCmd dir ["status", "--porcelain"]

/-- The stage-all command. -/
def addCmd (dir : String) : Cmd := gitCmd dir ["add", "."]

/-- The commit command with message `msg`. -/
def commitCmd (dir msg : String) : Cmd := gitCmd dir ["commit", "--message", msg]

/-- Recognises an invocation of stage-all. -/
def Cmd.isAdd (c : Cmd) : Bool :=
  match c.Args with
  | _ :: "add" :: _ => true
  | _ => false

/-- Recognises an invocation of commit. -/
def Cmd.isCommit (c : Cmd) : Bool :=
  match c.Args with
  | _ :: "commit" :: _ => true
  | _ => false

/-- The output of a status query reports a pending change: it has at least one
non-empty line. -/
def pending (out : String) : Prop :=
  ∃ l ∈ Split out '\n', l ≠ ""

/-- The author a run writes in its commit message. -/
def World.author (w : World) : String :=
  w.ReadBuildInfo.getD PackageName

/-- The directory a run works in. -/
def World.notes (w : World) : String :=
  Getenv w "NOTES"

/-- The commit message of the specification for author `a`, with the two
renderings of the current time. -/
def World.messageBy (w : World) (a : String) : String :=
  w.nowFormat DateTimeLayout ++ " autosave\n\nAutosaved by " ++ a ++ "\n"
    ++ w.nowFormat DateTimeVerboseLayout ++ "\n"

/-- The commit message a run writes. -/
def World.message (w : World) : String :=
  w.messageBy w.author

/-- A world given by the value of `NOTES`, the command line, and the results of
the three commands (whatever was run before). -/
def mkWorld (notes : Option String) (args : List String)
    (status add commit : String × Option Error) : World :=
  { environ := fun k => if k = "NOTES" then notes else none
    Args := args
    ReadBuildInfo := none
    nowFormat := fun layout =>
      if layout = DateTimeLayout then "2024-03-05 10:00:00"
      else "Tuesday, March 05 2024 10:00:00 UTC"
    exec := fun _ c => if c.isAdd then add else if c.isCommit then commit else status }

/-- The nodes of the commit message template. -/
def templateNodes : List Node :=
  [Node.field "Datetime", Node.text " autosave\n\nAutosaved by ",
   Node.field "Author", Node.text "\n", Node.field "DatetimeVerbose", Node.text "\n"]

/-! ## Worlds used as concrete inputs -/

/-- One modified file, every command succeeds. -/
def wChanged : World :=
  mkWorld (some "/notes") [] (" M a.txt\n", none) ("", none) ("[main 1a2b3c4] autosave\n", none)

/-- One modified file, `git add .` fails. -/
def wAddFails : World :=
  mkWorld (some "/notes") [] (" M a.txt\n", none)
    ("fatal: Unable to create index.lock\n", some "exit status 128") ("", none)

/-- Clean working tree. -/
def wClean : World :=
  mkWorld (some "/notes") [] ("", none) ("", none) ("", none)

/-- One modified file, dry run. -/
def wDry : World :=
  mkWorld (some "/notes") ["-dry"] (" M a.txt\n", none) ("", none) ("", none)

/-- The variable `NOTES` is unset. -/
def wUnset : World :=
  mkWorld none [] (" M a.txt\n", none) ("", none) ("", none)

/-- The status query fails (not a repository), with some output. -/
def wStatusFails : World :=
  mkWorld (some "/notes") []
    ("fatal: not a git repository\n", some "exit status 128") ("", none) ("", none)

/-- The variable `NOTES` is unset and the command line asks for help. -/
def wHelp : World :=
  mkWorld none ["-h"] (" M a.txt\n", none) ("", none) ("", none)

/-- The variable `NOTES` is empty and the command line asks for help. -/
def wHelpEmpty : World :=
  mkWorld (some "") ["--help"] ("", none) ("", none) ("", none)

/-- The status query prints a lone carriage return. -/
def wCarriageReturn : World :=
  mkWorld (some "/notes") [] ("\r", none) ("", none) ("", none)

/-! ## Lemmas -/

theorem CommitMessageTemplate_eq : CommitMessageTemplate = .ok templateNodes := by
  rfl

theorem Execute_format (d a v : String) :
    Execute templateNodes "" { Datetime := d, Author := a, DatetimeVerbose := v }
      = (d ++ " autosave\n\nAutosaved by " ++ a ++ "\n" ++ v ++ "\n", none) := by
  simp [templateNodes, Execute, CommitMessageData.lookup]

theorem Split.go_eq_splitOnP (sep : Char) (xs cur : List Char) :
    Split.go sep cur xs = List.splitOnP.go (· == sep) xs cur := by
  induction xs generalizing cur with
  | nil => simp [Split.go, List.splitOnP.go]
  | cons c cs ih =>
    by_cases h : c = sep
    · simp [Split.go, List.splitOnP.go, h, ih]
    · simp [Split.go, List.splitOnP.go, h, ih]

theorem Split.go_eq_splitOn (sep : Char) (xs : List Char) :
    Split.go sep [] xs = xs.splitOn sep := by
  rw [Split.go_eq_splitOnP]; rfl

/-- Every piece is free of the separator. -/
theorem Split.go_no_sep (sep : Char) (xs cur : List Char) (hcur : sep ∉ cur) :
    ∀ l ∈ Split.go sep cur xs, sep ∉ l := by
  induction xs generalizing cur with
  | nil => simpa [Split.go] using hcur
  | cons c cs ih =>
    by_cases h : c = sep
    · intro l hl
      simp only [Split.go, h, if_true, List.mem_cons] at hl
      rcases hl with rfl | hl
      · simpa using hcur
      · exact ih [] (by simp) l hl
    · simp only [Split.go, h, if_false]
      apply ih
      simp only [List.mem_cons, not_or]
      exact ⟨fun e => h e.symm, hcur⟩

/-- Some piece is non-empty exactly when a character other than the separator
has been read. -/
theorem Split.go_exists_ne_nil (sep : Char) (xs cur : List Char) :
    (∃ l ∈ Split.go sep cur xs, l ≠ []) ↔ (cur ≠ [] ∨ ∃ c ∈ xs, c ≠ sep) := by
  induction xs generalizing cur with
  | nil => simp [Split.go]
  | cons c cs ih =>
    by_cases h : c = sep
    · simp only [Split.go, h, if_true, List.mem_cons, exists_eq_or_imp, ih []]
      simp
    · simp only [Split.go, h, if_false, ih (c :: cur)]
      simp only [List.mem_cons, exists_eq_or_imp]
      simp [h]

theorem foldl_Lines (ls : List String) (acc : List String) :
    (ls.foldl (fun (status : gitStatus) line =>
        if line = "" then status else { Lines := status.Lines ++ [line] })
      { Lines := acc }).Lines = acc ++ ls.filter (· ≠ "") := by
  induction ls generalizing acc with
  | nil => simp
  | cons l ls ih =>
    by_cases h : l = ""
    · simp [List.foldl, h, ih]
    · simp [List.foldl, h, ih]

theorem foldl_status (ls : List String) :
    ls.foldl (fun (status : gitStatus) line =>
        if line = "" then status else { Lines := status.Lines ++ [line] })
      { Lines := [] } = { Lines := ls.filter (· ≠ "") } := by
  have h := foldl_Lines ls []
  generalize ls.foldl _ _ = st at h
  cases st
  simpa using h

theorem runGitStatus_ok (w : World) (g : Globals) (t : List Cmd) (out : String)
    (h : w.exec t (statusCmd g.cwd) = (out, none)) :
    runGitStatus w g t
      = (.ok { Lines := (Split out '\n').filter (· ≠ "") }, t ++ [statusCmd g.cwd]) := by
  have h2 : w.exec t { Command "git" ["status", "--porcelain"] with Dir := g.cwd } = (out, none) := h
  simp only [runGitStatus, CombinedOutput, h2, foldl_status]
  rfl

theorem runGitStatus_err (w : World) (g : Globals) (t : List Cmd) (out : String) (e : Error)
    (h : w.exec t (statusCmd g.cwd) = (out, some e)) :
    runGitStatus w g t = (.error e, t ++ [statusCmd g.cwd]) := by
  have h2 : w.exec t { Command "git" ["status", "--porcelain"] with Dir := g.cwd } = (out, some e) := h
  simp only [runGitStatus, CombinedOutput, h2]
  rfl

theorem runGitAddAll_eq (w : World) (g : Globals) (t : List Cmd) :
    runGitAddAll w g t = ((w.exec t (addCmd g.cwd)).2, t ++ [addCmd g.cwd]) := by
  have h2 : ({ Command "git" ["add", "."] with Dir := g.cwd } : Cmd) = addCmd g.cwd := rfl
  simp only [runGitAddAll, CombinedOutput, h2]
  rcases hx : w.exec t (addCmd g.cwd) with ⟨o, _ | e⟩ <;> simp

theorem runGitCommit_eq (w : World) (g : Globals) (t : List Cmd) :
    runGitCommit w templateNodes g t
      = ((w.exec t (commitCmd g.cwd (w.messageBy g.PackageName))).2,
          t ++ [commitCmd g.cwd (w.messageBy g.PackageName)]) := by
  have h2 : ∀ m, ({ Command "git" ["commit", "--message", m] with Dir := g.cwd } : Cmd)
      = commitCmd g.cwd m := fun _ => rfl
  have h3 : w.nowFormat DateTimeLayout ++ " autosave\n\nAutosaved by " ++ g.PackageName ++ "\n"
    ++ w.nowFormat DateTimeVerboseLayout ++ "\n" = w.messageBy g.PackageName := rfl
  simp only [runGitCommit, Execute_format, CombinedOutput, h2, h3]
  rcases hx : w.exec t (commitCmd g.cwd (w.messageBy g.PackageName)) with ⟨o, _ | e⟩ <;> simp

theorem HasChanges_iff_pending (out : String) :
    gitStatus.HasChanges { Lines := (Split out '\n').filter (· ≠ "") } = true ↔ pending out := by
  simp only [gitStatus.HasChanges, pending, decide_eq_true_eq, gt_iff_lt, List.length_pos]
  constructor
  · intro hne
    obtain ⟨l, hl⟩ := List.exists_mem_of_ne_nil _ hne
    simp only [List.mem_filter, decide_eq_true_eq] at hl
    exact ⟨l, hl.1, hl.2⟩
  · rintro ⟨l, hl, hne⟩ hnil
    have : l ∈ (Split out '\n').filter (· ≠ "") := by
      simp only [List.mem_filter, decide_eq_true_eq]
      exact ⟨hl, hne⟩
    rw [hnil] at this
    exact List.not_mem_nil _ this

theorem run_eq_main (w : World) (dry : Bool) (hf : flagParse w = .ok dry) (h : w.notes ≠ "") :
    run w = main w templateNodes { DryRun := dry, cwd := w.notes, PackageName := w.author } := by
  have h1 : Getenv w "NOTES" ≠ "" := h
  simp only [run, CommitMessageTemplate_eq, init, hf, h1, if_false]
  cases hb : w.ReadBuildInfo <;> simp [World.author, World.notes, hb]

theorem run_no_notes (w : World) (dry : Bool) (hf : flagParse w = .ok dry) (h : w.notes = "") :
    run w = { exitCode := 1, trace := [] } := by
  have h1 : Getenv w "NOTES" = "" := h
  simp [run, CommitMessageTemplate_eq, init, hf, h1]

theorem run_flag_exit (w : World) (code : Nat) (hf : flagParse w = .error code) :
    run w = { exitCode := code, trace := [] } := by
  simp [run, CommitMessageTemplate_eq, init, hf]

theorem flagParse_exit_code (w : World) (code : Nat) (hf : flagParse w = .error code) :
    code = 0 ∨ code = 2 := by
  unfold flagParse at hf
  cases hp : parseArgs false w.Args with
  | error e =>
    rw [hp] at hf
    cases e
    · left; simpa using hf.symm
    · right; simpa using hf.symm
  | ok d =>
    rw [hp] at hf
    simp at hf

theorem main_status_err (w : World) (g : Globals) (tpl : List Node)
    (h : (w.exec [] (statusCmd g.cwd)).2 ≠ none) :
    main w tpl g = { exitCode := 1, trace := [statusCmd g.cwd] } := by
  rcases hx : w.exec [] (statusCmd g.cwd) with ⟨out, _ | e⟩
  · simp [hx] at h
  · simp [main, runGitStatus_err w g [] out e hx]

theorem main_no_changes (w : World) (g : Globals) (tpl : List Node) (out : String)
    (h : w.exec [] (statusCmd g.cwd) = (out, none)) (hz : ¬ pending out) :
    main w tpl g = { exitCode := 0, trace := [statusCmd g.cwd] } := by
  have hc : gitStatus.HasChanges { Lines := (Split out '\n').filter (· ≠ "") } = false := by
    rw [← Bool.not_eq_true, HasChanges_iff_pending]; exact hz
  simp only [main, runGitStatus_ok w g [] out h, hc]
  simp

theorem main_dry (w : World) (g : Globals) (tpl : List Node) (out : String)
    (h : w.exec [] (statusCmd g.cwd) = (out, none)) (hd : g.DryRun = true) :
    main w tpl g = { exitCode := 0, trace := [statusCmd g.cwd] } := by
  by_cases hp : pending out
  · have hc := (HasChanges_iff_pending out).2 hp
    simp only [main, runGitStatus_ok w g [] out h, hc]
    simp [hd]
  · exact main_no_changes w g tpl out h hp

theorem main_add_err (w : World) (g : Globals) (tpl : List Node) (out : String)
    (h : w.exec [] (statusCmd g.cwd) = (out, none)) (hp : pending out)
    (hd : g.DryRun = false)
    (ha : (w.exec [statusCmd g.cwd] (addCmd g.cwd)).2 ≠ none) :
    main w tpl g = { exitCode := 1, trace := [statusCmd g.cwd, addCmd g.cwd] } := by
  have hc := (HasChanges_iff_pending out).2 hp
  rcases hx : (w.exec [statusCmd g.cwd] (addCmd g.cwd)).2 with _ | e
  · exact absurd hx ha
  · simp only [main, runGitStatus_ok w g [] out h, hc]
    simp [hd, runGitAddAll_eq, hx]

theorem main_commit (w : World) (g : Globals) (out : String)
    (h : w.exec [] (statusCmd g.cwd) = (out, none)) (hp : pending out)
    (hd : g.DryRun = false)
    (ha : (w.exec [statusCmd g.cwd] (addCmd g.cwd)).2 = none) :
    main w templateNodes g =
      { exitCode :=
          if (w.exec [statusCmd g.cwd, addCmd g.cwd]
                (commitCmd g.cwd (w.messageBy g.PackageName))).2 = none then 0 else 1
        trace := [statusCmd g.cwd, addCmd g.cwd, commitCmd g.cwd (w.messageBy g.PackageName)] } := by
  have hc := (HasChanges_iff_pending out).2 hp
  rcases hx : (w.exec [statusCmd g.cwd, addCmd g.cwd]
      (commitCmd g.cwd (w.messageBy g.PackageName))).2 with _ | e
  · simp only [main, runGitStatus_ok w g [] out h, hc]
    simp [hd, runGitAddAll_eq, ha, runGitCommit_eq, hx]
  · simp only [main, runGitStatus_ok w g [] out h, hc]
    simp [hd, runGitAddAll_eq, ha, runGitCommit_eq, hx]

theorem pending_iff_char (out : String) :
    pending out ↔ ∃ c ∈ out.data, c ≠ '\n' := by
  have h := Split.go_exists_ne_nil '\n' out.data []
  simp only [ne_eq, not_true_eq_false, false_or] at h
  rw [← h]
  simp only [pending, Split, List.mem_map]
  constructor
  · rintro ⟨l, ⟨cs, hcs, rfl⟩, hne⟩
    refine ⟨cs, hcs, ?_⟩
    rintro rfl
    exact hne rfl
  · rintro ⟨cs, hcs, hne⟩
    refine ⟨String.mk cs, ⟨cs, hcs, rfl⟩, ?_⟩
    intro he
    exact hne (congrArg String.data he)

theorem addCmd_ne_statusCmd (dir : String) : addCmd dir ≠ statusCmd dir := by
  simp [addCmd, statusCmd, gitCmd]

theorem Split_filter_data (out : String) :
    ((Split out '\n').filter (· ≠ "")).map String.data
      = (out.data.splitOn '\n').filter (· ≠ []) := by
  rw [← Split.go_eq_splitOn, Split, List.filter_map, List.map_map]
  have hf : (String.data ∘ String.mk) = id := by funext l; rfl
  have hp : ((fun x : String => decide (x ≠ "")) ∘ String.mk)
      = fun l : List Char => decide (l ≠ []) := by
    funext l
    have : (String.mk l = "") ↔ l = [] :=
      ⟨fun he => congrArg String.data he, fun he => by rw [he]⟩
    simp [this]
  rw [hf, hp, List.map_id]

theorem Split_no_newline (out : String) : ∀ l ∈ Split out '\n', '\n' ∉ l.data := by
  intro l hl
  simp only [Split, List.mem_map] at hl
  obtain ⟨cs, hcs, rfl⟩ := hl
  exact Split.go_no_sep '\n' out.data [] (by simp) cs hcs

/-! ## The claims -/

/-- Claim C1, as stated, fails: with a non-empty directory, dry-run disabled and
one pending change reported, a failing `git add .` ends the run after two
commands, and no commit is started. -/
theorem C1_counterexample :
    wAddFails.notes ≠ "" ∧ flagParse wAddFails = .ok false ∧
    wAddFails.exec [] (statusCmd wAddFails.notes) = (" M a.txt\n", none) ∧
    pending " M a.txt\n" ∧
    (run wAddFails).trace = [statusCmd "/notes", addCmd "/notes"] ∧
    ¬ ∃ msg, (run wAddFails).trace
        = [statusCmd wAddFails.notes, addCmd wAddFails.notes, commitCmd wAddFails.notes msg] := by
  have ht : (run wAddFails).trace = [statusCmd "/notes", addCmd "/notes"] := by decide
  refine ⟨by decide, rfl, by decide, ⟨" M a.txt", by decide, by decide⟩, ht, ?_⟩
  rintro ⟨msg, h⟩
  rw [ht] at h
  simp at h

/-- Claim C1 (amended): when the directory path is non-empty, the command line
is parsed with dry-run disabled, the status query succeeds reporting at least
one pending change and the stage-all invocation succeeds, the commands started
are exactly the status query, then `git add .`, then `git commit --message` with
the rendered message: stage-all and commit once each, in that order, after the
single status query. -/
theorem C1_stage_then_commit (w : World) (out : String)
    (hn : w.notes ≠ "") (hd : flagParse w = .ok false)
    (hst : w.exec [] (statusCmd w.notes) = (out, none)) (hp : pending out)
    (hadd : (w.exec [statusCmd w.notes] (addCmd w.notes)).2 = none) :
    (run w).trace = [statusCmd w.notes, addCmd w.notes, commitCmd w.notes w.message] := by
  rw [run_eq_main w false hd hn,
    main_commit w { DryRun := false, cwd := w.notes, PackageName := w.author } out hst hp rfl hadd]
  rfl

theorem C1_stage_then_commit_witness :
    wChanged.notes ≠ "" ∧ flagParse wChanged = .ok false ∧ pending " M a.txt\n" ∧
    (run wChanged).trace =
      [statusCmd "/notes", addCmd "/notes",
       commitCmd "/notes"
         "2024-03-05 10:00:00 autosave\n\nAutosaved by go-autosave\nTuesday, March 05 2024 10:00:00 UTC\n"] :=
  ⟨by decide, rfl, ⟨" M a.txt", by decide, by decide⟩,
    C1_stage_then_commit wChanged " M a.txt\n" (by decide) rfl (by decide)
      ⟨" M a.txt", by decide, by decide⟩ (by decide)⟩

/-- Claim C2: when the directory path is non-empty and the status query succeeds
with no non-empty line in its output, the process exits with code 0 and the
status query is the only command started (neither stage-all nor commit),
whatever value `dry` the command line gives the dry-run flag. -/
theorem C2_no_changes (w : World) (dry : Bool) (out : String)
    (hf : flagParse w = .ok dry)
    (hn : w.notes ≠ "")
    (hst : w.exec [] (statusCmd w.notes) = (out, none))
    (hz : ∀ l ∈ Split out '\n', l = "") :
    (run w).exitCode = 0 ∧ (run w).trace = [statusCmd w.notes] ∧
      ∀ c ∈ (run w).trace, c.isAdd = false ∧ c.isCommit = false := by
  have hnp : ¬ pending out := by
    rintro ⟨l, hl, hne⟩
    exact hne (hz l hl)
  rw [run_eq_main w dry hf hn,
    main_no_changes w { DryRun := dry, cwd := w.notes, PackageName := w.author } _ out hst hnp]
  refine ⟨rfl, rfl, ?_⟩
  intro c hc
  simp only [List.mem_singleton] at hc
  subst hc
  exact ⟨rfl, rfl⟩

theorem C2_no_changes_witness :
    flagParse wClean = .ok false ∧ wClean.notes ≠ "" ∧ (∀ l ∈ Split "" '\n', l = "") ∧
    (run wClean).exitCode = 0 ∧ (run wClean).trace = [statusCmd "/notes"] ∧
      ∀ c ∈ (run wClean).trace, c.isAdd = false ∧ c.isCommit = false :=
  ⟨rfl, by decide, by decide,
    C2_no_changes wClean false "" rfl (by decide) (by decide) (by decide)⟩

/-- Claim C3: with dry-run enabled on the command line, a non-empty directory
path and a successful status query reporting at least one pending change, the
status query is the only command started (stage-all and commit are never
invoked) and the exit code is 0. -/
theorem C3_dry_run (w : World) (out : String)
    (hn : w.notes ≠ "") (hd : flagParse w = .ok true)
    (hst : w.exec [] (statusCmd w.notes) = (out, none)) (_hp : pending out) :
    (run w).exitCode = 0 ∧ (run w).trace = [statusCmd w.notes] ∧
      ∀ c ∈ (run w).trace, c.isAdd = false ∧ c.isCommit = false := by
  rw [run_eq_main w true hd hn,
    main_dry w { DryRun := true, cwd := w.notes, PackageName := w.author } _ out hst rfl]
  refine ⟨rfl, rfl, ?_⟩
  intro c hc
  simp only [List.mem_singleton] at hc
  subst hc
  exact ⟨rfl, rfl⟩

theorem C3_dry_run_witness :
    wDry.notes ≠ "" ∧ flagParse wDry = .ok true ∧ pending " M a.txt\n" ∧
    (run wDry).exitCode = 0 ∧ (run wDry).trace = [statusCmd "/notes"] ∧
      ∀ c ∈ (run wDry).trace, c.isAdd = false ∧ c.isCommit = false :=
  ⟨by decide, rfl, ⟨" M a.txt", by decide, by decide⟩,
    C3_dry_run wDry " M a.txt\n" (by decide) rfl (by decide)
      ⟨" M a.txt", by decide, by decide⟩⟩

/-- Claim C4: the template parses, and for all strings `d` (compact timestamp),
`a` (author) and `v` (verbose timestamp) its rendering is exactly
`d ++ " autosave\n\nAutosaved by " ++ a ++ "\n" ++ v ++ "\n"`, without error;
the example of the specification is an instance; and `runGitCommit` hands
exactly this text to `git commit --message`. -/
theorem C4_commit_message (d a v : String) (w : World) (dry : Bool) (cwd : String)
    (t : List Cmd) :
    (∃ tpl, CommitMessageTemplate = .ok tpl ∧
      Execute tpl "" { Datetime := d, Author := a, DatetimeVerbose := v }
        = (d ++ " autosave\n\nAutosaved by " ++ a ++ "\n" ++ v ++ "\n", none) ∧
      Execute tpl ""
          { Datetime := "2024-03-05 10:00:00", Author := "go-autosave",
            DatetimeVerbose := "Tuesday, March 05 2024 10:00:00 UTC" }
        = ("2024-03-05 10:00:00 autosave\n\nAutosaved by go-autosave\nTuesday, March 05 2024 10:00:00 UTC\n",
            none) ∧
      (runGitCommit w tpl { DryRun := dry, cwd := cwd, PackageName := a } t).2
        = t ++ [commitCmd cwd
            (w.nowFormat DateTimeLayout ++ " autosave\n\nAutosaved by " ++ a ++ "\n"
              ++ w.nowFormat DateTimeVerboseLayout ++ "\n")]) := by
  refine ⟨_, CommitMessageTemplate_eq, Execute_format d a v, ?_, ?_⟩
  · rw [Execute_format]; rfl
  · exact congrArg Prod.snd
      (runGitCommit_eq w { DryRun := dry, cwd := cwd, PackageName := a } t)

/-- Claim C5, as stated, fails: with `NOTES` unset and the command line `-h`,
`flag.Parse` prints the usage and exits 0 before `NOTES` is read, so the exit
code is 0 (no command is started). -/
theorem C5_counterexample :
    wHelp.environ "NOTES" = none ∧ wHelp.Args = ["-h"] ∧
    (run wHelp).exitCode = 0 ∧ (run wHelp).trace = [] := by
  decide

/-- Claim C5 (amended): when the variable `NOTES` is absent or empty, the process
starts no external command at all, whatever the command line; and its exit code
is non-zero unless `flag.Parse` ends the process with code 0, which it does
exactly on a help request (`-h`, `-help`): the exit code is 1 when the command
line is parsed, whatever value the dry-run flag gets, and 2 on a usage error. -/
theorem C5_missing_directory (w : World)
    (h : w.environ "NOTES" = none ∨ w.environ "NOTES" = some "") :
    (run w).trace = [] ∧
    ((run w).exitCode = 0 ↔ parseArgs false w.Args = .error FlagError.ErrHelp) ∧
    ((run w).exitCode = 1 ↔ ∃ dry, parseArgs false w.Args = .ok dry) ∧
    ((run w).exitCode = 2 ↔ parseArgs false w.Args = .error FlagError.failf) := by
  have hn : w.notes = "" := by
    rcases h with h | h <;> simp [World.notes, Getenv, h]
  cases hp : parseArgs false w.Args with
  | ok dry =>
    have hf : flagParse w = .ok dry := by simp [flagParse, hp]
    rw [run_no_notes w dry hf hn]
    simp
  | error e =>
    cases e with
    | ErrHelp =>
      have hf : flagParse w = .error 0 := by simp [flagParse, hp]
      rw [run_flag_exit w 0 hf]
      simp
    | failf =>
      have hf : flagParse w = .error 2 := by simp [flagParse, hp]
      rw [run_flag_exit w 2 hf]
      simp

theorem C5_missing_directory_witness :
    wUnset.environ "NOTES" = none ∧
    (run wUnset).trace = [] ∧
    ((run wUnset).exitCode = 0 ↔ parseArgs false wUnset.Args = .error FlagError.ErrHelp) ∧
    ((run wUnset).exitCode = 1 ↔ ∃ dry, parseArgs false wUnset.Args = .ok dry) ∧
    ((run wUnset).exitCode = 2 ↔ parseArgs false wUnset.Args = .error FlagError.failf) :=
  ⟨rfl, C5_missing_directory wUnset (Or.inl rfl)⟩

/-- Claim C6: when the status query fails, whatever its output and whatever value
`dry` the command line gives the dry-run flag, the process exits with a non-zero
code and the status query is the only command started: neither stage-all nor
commit is invoked. -/
theorem C6_status_fails (w : World) (dry : Bool)
    (hf : flagParse w = .ok dry)
    (hn : w.notes ≠ "")
    (hfail : (w.exec [] (statusCmd w.notes)).2 ≠ none) :
    (run w).exitCode ≠ 0 ∧ (run w).trace = [statusCmd w.notes] ∧
      ∀ c ∈ (run w).trace, c.isAdd = false ∧ c.isCommit = false := by
  rw [run_eq_main w dry hf hn,
    main_status_err w { DryRun := dry, cwd := w.notes, PackageName := w.author } _ hfail]
  refine ⟨Nat.one_ne_zero, rfl, ?_⟩
  intro c hc
  simp only [List.mem_singleton] at hc
  subst hc
  exact ⟨rfl, rfl⟩

theorem C6_status_fails_witness :
    flagParse wStatusFails = .ok false ∧ wStatusFails.notes ≠ "" ∧
    (wStatusFails.exec [] (statusCmd wStatusFails.notes)).2 ≠ none ∧
    (run wStatusFails).exitCode ≠ 0 ∧ (run wStatusFails).trace = [statusCmd "/notes"] ∧
      ∀ c ∈ (run wStatusFails).trace, c.isAdd = false ∧ c.isCommit = false :=
  ⟨rfl, by decide, by decide,
    C6_status_fails wStatusFails false rfl (by decide) (by decide)⟩

/-- Claim C7, as stated, fails: with `NOTES` empty and the command line `--help`
the process exits 0 inside `flag.Parse`, although the directory path is empty
and no status query was made. -/
theorem C7_counterexample :
    wHelpEmpty.Args = ["--help"] ∧ (run wHelpEmpty).exitCode = 0 ∧
    (run wHelpEmpty).trace = [] ∧
    ¬ (wHelpEmpty.notes ≠ "" ∧ (wHelpEmpty.exec [] (statusCmd wHelpEmpty.notes)).2 = none ∧
        (¬ pending (wHelpEmpty.exec [] (statusCmd wHelpEmpty.notes)).1 ∨
          flagParse wHelpEmpty = .ok true ∨
          ((wHelpEmpty.exec [statusCmd wHelpEmpty.notes] (addCmd wHelpEmpty.notes)).2 = none ∧
            (wHelpEmpty.exec [statusCmd wHelpEmpty.notes, addCmd wHelpEmpty.notes]
              (commitCmd wHelpEmpty.notes wHelpEmpty.message)).2 = none))) := by
  refine ⟨rfl, by decide, by decide, ?_⟩
  rintro ⟨hn, _⟩
  exact hn (by decide)

/-- Claim C7 (amended): for every run, the exit code is 0 if and only if either
`flag.Parse` meets a help request (`-h`, `-help`) and ends the process with
code 0, or the command line is parsed giving the dry-run flag a value `dry`, the
directory path is non-empty, the status query succeeds, and either its output
reports no pending change, or `dry` is true, or both the stage-all and the
commit invocations succeed; in every other case the exit code is non-zero. -/
theorem C7_exit_code (w : World) :
    (run w).exitCode = 0 ↔
      (parseArgs false w.Args = .error FlagError.ErrHelp ∨
        ∃ dry, parseArgs false w.Args = .ok dry ∧
          w.notes ≠ "" ∧ (w.exec [] (statusCmd w.notes)).2 = none ∧
          (¬ pending (w.exec [] (statusCmd w.notes)).1 ∨ dry = true ∨
            ((w.exec [statusCmd w.notes] (addCmd w.notes)).2 = none ∧
              (w.exec [statusCmd w.notes, addCmd w.notes]
                (commitCmd w.notes w.message)).2 = none))) := by
  cases hpa : parseArgs false w.Args with
  | error e =>
    cases e with
    | ErrHelp =>
      have hf : flagParse w = .error 0 := by simp [flagParse, hpa]
      simp [run_flag_exit w 0 hf]
    | failf =>
      have hf : flagParse w = .error 2 := by simp [flagParse, hpa]
      simp [run_flag_exit w 2 hf]
  | ok dry =>
    have hf : flagParse w = .ok dry := by simp [flagParse, hpa]
    simp only [false_or, Except.ok.injEq, exists_eq_left', reduceCtorEq]
    by_cases hn : w.notes = ""
    · simp [run_no_notes w dry hf hn, hn]
    rw [run_eq_main w dry hf hn]
    rcases hst : w.exec [] (statusCmd w.notes) with ⟨out, _ | e⟩
    swap
    · have hfail : (w.exec [] (statusCmd w.notes)).2 ≠ none := by simp [hst]
      simp [main_status_err w { DryRun := dry, cwd := w.notes, PackageName := w.author } _ hfail]
    by_cases hp : pending out
    swap
    · simp [main_no_changes w { DryRun := dry, cwd := w.notes, PackageName := w.author } _ out
        hst hp, hn, hp]
    cases dry
    swap
    · simp [main_dry w { DryRun := true, cwd := w.notes, PackageName := w.author } _ out hst rfl,
        hn]
    by_cases ha : (w.exec [statusCmd w.notes] (addCmd w.notes)).2 = none
    swap
    · simp [main_add_err w { DryRun := false, cwd := w.notes, PackageName := w.author } _ out
        hst hp rfl ha, hn, hp, ha]
    rw [main_commit w { DryRun := false, cwd := w.notes, PackageName := w.author } out
      hst hp rfl ha]
    have hm : w.messageBy w.author = w.message := rfl
    simp only [hm]
    by_cases hc :
        (w.exec [statusCmd w.notes, addCmd w.notes] (commitCmd w.notes w.message)).2 = none
    · simp [hc, hn, ha]
    · simp [hc, hn, hp]

/-- Claim C8: after a successful status query with output `out`, the returned
lines are exactly the non-empty pieces of `out` split at the newline character,
in their original order (nothing dropped, merged or reordered); no returned line
is empty and none contains a newline. -/
theorem C8_status_lines (w : World) (g : Globals) (t : List Cmd) (out : String)
    (h : w.exec t (statusCmd g.cwd) = (out, none)) :
    ∃ status, (runGitStatus w g t).1 = .ok status ∧
      status.Lines = (Split out '\n').filter (· ≠ "") ∧
      status.Lines.map String.data = (out.data.splitOn '\n').filter (· ≠ []) ∧
      ∀ l ∈ status.Lines, l ≠ "" ∧ '\n' ∉ l.data := by
  refine ⟨{ Lines := (Split out '\n').filter (· ≠ "") }, ?_, rfl, Split_filter_data out, ?_⟩
  · rw [runGitStatus_ok w g t out h]
  · intro l hl
    simp only [List.mem_filter, decide_eq_true_eq] at hl
    exact ⟨hl.2, Split_no_newline out l hl.1⟩

theorem C8_status_lines_witness :
    wChanged.exec [] (statusCmd "/notes") = (" M a.txt\n", none) ∧
    ∃ status,
      (runGitStatus wChanged
          { DryRun := false, cwd := "/notes", PackageName := "go-autosave" } []).1
        = .ok status ∧
      status.Lines = (Split " M a.txt\n" '\n').filter (· ≠ "") ∧
      status.Lines.map String.data = (" M a.txt\n".data.splitOn '\n').filter (· ≠ []) ∧
      ∀ l ∈ status.Lines, l ≠ "" ∧ '\n' ∉ l.data :=
  ⟨by decide,
    C8_status_lines wChanged { DryRun := false, cwd := "/notes", PackageName := "go-autosave" }
      [] " M a.txt\n" (by decide)⟩

/-- Claim C9: with dry-run disabled, pending changes reported and a failing
stage-all invocation, the process exits with a non-zero code right after it:
the commands started are the status query and one `git add .`, and no commit. -/
theorem C9_add_fails (w : World) (out : String)
    (hn : w.notes ≠ "") (hd : flagParse w = .ok false)
    (hst : w.exec [] (statusCmd w.notes) = (out, none)) (hp : pending out)
    (hadd : (w.exec [statusCmd w.notes] (addCmd w.notes)).2 ≠ none) :
    (run w).exitCode ≠ 0 ∧ (run w).trace = [statusCmd w.notes, addCmd w.notes] ∧
      ∀ c ∈ (run w).trace, c.isCommit = false := by
  rw [run_eq_main w false hd hn,
    main_add_err w { DryRun := false, cwd := w.notes, PackageName := w.author } _ out
      hst hp rfl hadd]
  refine ⟨Nat.one_ne_zero, rfl, ?_⟩
  intro c hc
  simp only [List.mem_cons, List.mem_singleton, List.not_mem_nil, or_false] at hc
  rcases hc with rfl | rfl <;> rfl

theorem C9_add_fails_witness :
    wAddFails.notes ≠ "" ∧ flagParse wAddFails = .ok false ∧ pending " M a.txt\n" ∧
    (wAddFails.exec [statusCmd wAddFails.notes] (addCmd wAddFails.notes)).2 ≠ none ∧
    (run wAddFails).exitCode ≠ 0 ∧
    (run wAddFails).trace = [statusCmd "/notes", addCmd "/notes"] ∧
      ∀ c ∈ (run wAddFails).trace, c.isCommit = false :=
  ⟨by decide, rfl, ⟨" M a.txt", by decide, by decide⟩, by decide,
    C9_add_fails wAddFails " M a.txt\n" (by decide) rfl (by decide)
      ⟨" M a.txt", by decide, by decide⟩ (by decide)⟩

/-- Claim C10: after a successful status query with output `out`, `HasChanges`
holds of the parsed status if and only if `out` has a character other than the
newline; and the run starts `git add .` exactly when, moreover, the directory
path is non-empty and the command line is parsed with dry-run disabled.  So
empty or newline-only output means no changes, any other output (a blank line of
spaces, a lone carriage return) leads to staging. -/
theorem C10_has_changes (w : World) (dry : Bool) (out : String)
    (hst : w.exec [] (statusCmd w.notes) = (out, none)) :
    (∃ status,
      (runGitStatus w { DryRun := dry, cwd := w.notes, PackageName := w.author } []).1
        = .ok status ∧
      (status.HasChanges = true ↔ ∃ c ∈ out.data, c ≠ '\n')) ∧
    (addCmd w.notes ∈ (run w).trace ↔
      (w.notes ≠ "" ∧ flagParse w = .ok false ∧ ∃ c ∈ out.data, c ≠ '\n')) := by
  constructor
  · refine ⟨{ Lines := (Split out '\n').filter (· ≠ "") }, ?_, ?_⟩
    · rw [runGitStatus_ok w { DryRun := dry, cwd := w.notes, PackageName := w.author } []
        out hst]
    · rw [HasChanges_iff_pending, pending_iff_char]
  · rw [← pending_iff_char]
    cases hf : flagParse w with
    | error code => simp [run_flag_exit w code hf]
    | ok d =>
      by_cases hn : w.notes = ""
      · simp [run_no_notes w d hf hn, hn]
      rw [run_eq_main w d hf hn]
      by_cases hp : pending out
      swap
      · simp [main_no_changes w { DryRun := d, cwd := w.notes, PackageName := w.author } _ out
          hst hp, hp, addCmd_ne_statusCmd]
      cases d
      swap
      · simp [main_dry w { DryRun := true, cwd := w.notes, PackageName := w.author } _ out
          hst rfl, addCmd_ne_statusCmd]
      by_cases ha : (w.exec [statusCmd w.notes] (addCmd w.notes)).2 = none
      · simp [main_commit w { DryRun := false, cwd := w.notes, PackageName := w.author } out
          hst hp rfl ha, hn, hp]
      · simp [main_add_err w { DryRun := false, cwd := w.notes, PackageName := w.author } _ out
          hst hp rfl ha, hn, hp]

theorem C10_has_changes_witness :
    wCarriageReturn.exec [] (statusCmd wCarriageReturn.notes) = ("\r", none) ∧
    (∃ c ∈ "\r".data, c ≠ '\n') ∧
    (∃ status, (runGitStatus wCarriageReturn
          { DryRun := false, cwd := wCarriageReturn.notes,
            PackageName := wCarriageReturn.author } []).1
        = .ok status ∧
      (status.HasChanges = true ↔ ∃ c ∈ "\r".data, c ≠ '\n')) ∧
    (addCmd wCarriageReturn.notes ∈ (run wCarriageReturn).trace ↔
      (wCarriageReturn.notes ≠ "" ∧ flagParse wCarriageReturn = .ok false ∧
        ∃ c ∈ "\r".data, c ≠ '\n')) :=
  ⟨by decide, ⟨'\r', by decide, by decide⟩,
    C10_has_changes wCarriageReturn false "\r" (by decide)⟩

end Autosave
